import Mathlib

/-!
Verification development for the tesserarx browser client.

Shallow embedding of the wallet/contract abstraction layer
(`src/evm-contract.js`, `src/wallet-manager.js`), the content loader and
its cache (`public/content-loader.js` and the scoped variant), and the
package decryption routine documented in `README.md`.  Machine integers
are modelled as `Nat` (JS `BigInt` is unbounded; `Uint8Array` cells are
bytes, reduced `% 256` where the code masks).  JS exceptions and promise
rejections are modelled as `Option`/explicit outcome types.
-/

/-! ## Byte and hex utilities (from `@polkadot/util` as used by the code) -/

/-- Hex digit character for a value `0..15` (lowercase, as `u8aToHex` emits). -/
def hexDigitChar (n : Nat) : Char :=
  if n < 10 then Char.ofNat ('0'.toNat + n) else Char.ofNat ('a'.toNat + (n - 10))

/-- The two hex characters of one byte. -/
def byteHexChars (b : Nat) : List Char :=
  [hexDigitChar (b / 16 % 16), hexDigitChar (b % 16)]

/-- Hex rendering of a byte sequence, without the `0x` tag. -/
def bytesToHex (bs : List Nat) : String :=
  String.mk (bs.flatMap byteHexChars)

/-- `u8aToHex` from `@polkadot/util`: `0x`-tagged lowercase hex of the bytes. -/
def u8aToHex (bs : List Nat) : String :=
  "0x" ++ bytesToHex bs

/-- Numeric value of a hex digit character (other characters map to 0;
the JS library rejects them, a path no claim exercises). -/
def hexVal (c : Char) : Nat :=
  if '0' ≤ c ∧ c ≤ '9' then c.toNat - '0'.toNat
  else if 'a' ≤ c ∧ c ≤ 'f' then c.toNat - 'a'.toNat + 10
  else if 'A' ≤ c ∧ c ≤ 'F' then c.toNat - 'A'.toNat + 10
  else 0

/-- Decode consecutive pairs of hex characters to bytes. -/
def hexPairsToBytes : List Char → List Nat
  | c1 :: c2 :: rest => (hexVal c1 * 16 + hexVal c2) :: hexPairsToBytes rest
  | _ => []

/-- Character-list version of JS `String.prototype.startsWith`:
`listStarts pat s` holds when `pat` is an initial run of `s`. -/
def listStarts : List Char → List Char → Bool
  | [], _ => true
  | _ :: _, [] => false
  | p :: ps, c :: cs => p == c && listStarts ps cs

/-- JS `s.startsWith(pat)`. -/
def strStarts (s pat : String) : Bool :=
  listStarts pat.data s.data

/-- `hexToU8a` from `@polkadot/util`: strips a leading `0x` and decodes
hex pairs. -/
def hexToU8a (s : String) : List Nat :=
  hexPairsToBytes (if strStarts s "0x" then s.data.drop 2 else s.data)

/-! ## EVM ABI parameter encoding (`src/evm-contract.js`, `encodeParams`) -/

/-- A JS argument handed to a contract method: a numeric value
(`BigInt(value)`), a boolean, or an address given as its decoded bytes
(the code runs `hexToU8a(value)` on the hex string). -/
inductive EvmArg where
  | num (v : Nat)
  | boolean (b : Bool)
  | addrBytes (bs : List Nat)
deriving Repr, DecidableEq

/-- Big-endian byte rendering: `beBytes n v` is the `n` low-order
base-256 digits of `v`, most significant first.  Mirrors the
`for (let j = 31; j >= 0; j--) { bytes[j] = num & 0xFF; num >>= 8 }`
loop of `encodeParams`. -/
def beBytes : Nat → Nat → List Nat
  | 0, _ => []
  | n + 1, v => beBytes n (v / 256) ++ [v % 256]

/-- Big-endian fold of a byte sequence back to a number.  Mirrors the
`value = (value << 8n) | BigInt(bytes[i])` loop of `decodeSingleValue`. -/
def beFold (bs : List Nat) : Nat :=
  bs.foldl (fun acc b => acc * 256 + b) 0

/-- Left-pad a byte sequence with zeros to 32 bytes
(`encoded.set(addr, offset + (32 - addr.length))`). -/
def leftPad32 (bs : List Nat) : List Nat :=
  List.replicate (32 - bs.length) 0 ++ bs

/-- One 32-byte parameter slot of `encodeParams`: addresses are
left-padded, `uint*` values are big-endian 32 bytes, booleans occupy the
low-order byte, and any other type leaves its slot as the zero bytes the
`new Uint8Array(types.length * 32)` allocation started with (the code
has no branch for it and raises nothing). -/
def encSlot (type : String) (value : EvmArg) : List Nat :=
  if type = "address" then
    leftPad32 (match value with
      | .addrBytes bs => bs
      | .num _ => []
      | .boolean _ => [])
  else if type = "uint256" ∨ strStarts type "uint" = true then
    beBytes 32 (match value with
      | .num v => v
      | .boolean b => if b then 1 else 0
      | .addrBytes _ => 0)
  else if type = "bool" then
    List.replicate 31 0 ++ [match value with
      | .boolean b => if b then 1 else 0
      | .num v => if v ≠ 0 then 1 else 0
      | .addrBytes _ => 1]
  else
    List.replicate 32 0

/-- `encodeParams(types, values)`: one 32-byte slot per declared type. -/
def encodeParams (types : List String) (values : List EvmArg) : List Nat :=
  (types.zip values).flatMap (fun tv => encSlot tv.1 tv.2)

/-! ## EVM ABI return-data decoding (`decodeSingleValue`, `decodeReturnData`) -/

/-- A decoded return value.  The JS code returns for `uint*` the decimal
string `value.toString()`; we carry the numeric value (its decimal
rendering is injective).  A decoded `string` is carried as its raw bytes
(the code feeds them to `TextDecoder`). -/
inductive DecodedValue where
  | addr (s : String)
  | uint (v : Nat)
  | boolV (b : Bool)
  | strBytes (bs : List Nat)
  | raw (s : String)
deriving Repr, DecidableEq

/-- `decodeSingleValue(type, bytes)`.  Note there is no length check
anywhere: short inputs silently fold to a truncated number (`uint`),
read a default for the missing byte 31 (`bool`, JS `undefined === 1` is
`false`, matching the default 0), or slice to shorter byte runs.  The
`string` branch inlines the recursive `decodeSingleValue('uint256', …)`
length read. -/
def decodeSingleValue (type : String) (bytes : List Nat) : DecodedValue :=
  if type = "address" then
    .addr ("0x" ++ bytesToHex (bytes.drop (bytes.length - 20)))
  else if type = "uint256" ∨ strStarts type "uint" = true then
    .uint (beFold bytes)
  else if type = "bool" then
    .boolV (bytes.getD 31 0 == 1)
  else if type = "string" then
    .strBytes ((bytes.drop 64).take (beFold ((bytes.drop 32).take 32)))
  else
    .raw (u8aToHex bytes)

/-- Result of `decodeReturnData`: one value, or a list for multiple
declared return types. -/
inductive DecodedResult where
  | single (v : DecodedValue)
  | multi (vs : List DecodedValue)
deriving Repr, DecidableEq

/-- `decodeReturnData(types, data)`: `null` (here `none`) when the call
returned no data (`!data || data === '0x'`; the absent case is `none`
input), otherwise decode one value or 32-byte slots in declaration
order. -/
def decodeReturnData (types : List String) (data : Option String) : Option DecodedResult :=
  match data with
  | none => none
  | some s =>
    if s = "" ∨ s = "0x" then none
    else
      let bytes := hexToU8a s
      if types.length = 1 then
        some (.single (decodeSingleValue (types.headD "") bytes))
      else
        some (.multi (types.enum.map (fun p =>
          decodeSingleValue p.2 ((bytes.drop (32 * p.1)).take 32))))

/-! ## Arithmetic facts about the slot round trip -/

theorem beBytes_foldl (n : Nat) : ∀ (v a : Nat),
    (beBytes n v).foldl (fun acc b => acc * 256 + b) a = a * 256 ^ n + v % 256 ^ n := by
  induction n with
  | zero => intro v a; simp [beBytes, Nat.mod_one]
  | succ n ih =>
    intro v a
    have hmod : v % 256 ^ (n + 1) = (v / 256 % 256 ^ n) * 256 + v % 256 := by
      have h1 : (256 : Nat) ^ (n + 1) = 256 ^ n * 256 := by ring
      have h2 : v = (v / 256) * 256 + v % 256 := by
        have := Nat.div_add_mod v 256; omega
      calc v % 256 ^ (n + 1)
          = ((v / 256) * 256 + v % 256) % (256 ^ n * 256) := by rw [h1, ← h2]
        _ = ((v / 256) * 256 % (256 ^ n * 256) + (v % 256) % (256 ^ n * 256)) %
              (256 ^ n * 256) := by rw [Nat.add_mod]
        _ = ((v / 256 % 256 ^ n) * 256 + v % 256) % (256 ^ n * 256) := by
              have hlt : v % 256 < 256 ^ n * 256 := by
                have h256 : v % 256 < 256 := Nat.mod_lt _ (by norm_num)
                have hpow : (1 : Nat) ≤ 256 ^ n := Nat.one_le_pow _ _ (by norm_num)
                calc v % 256 < 256 := h256
                  _ = 1 * 256 := by ring
                  _ ≤ 256 ^ n * 256 := Nat.mul_le_mul_right _ hpow
              rw [Nat.mul_mod_mul_right, Nat.mod_eq_of_lt hlt]
        _ = (v / 256 % 256 ^ n) * 256 + v % 256 := by
              apply Nat.mod_eq_of_lt
              have ha : v / 256 % 256 ^ n < 256 ^ n := by
                exact Nat.mod_lt _ (Nat.pos_pow_of_pos _ (by norm_num))
              have hb : v % 256 < 256 := Nat.mod_lt _ (by norm_num)
              calc (v / 256 % 256 ^ n) * 256 + v % 256
                  < (v / 256 % 256 ^ n) * 256 + 256 := by omega
                _ = (v / 256 % 256 ^ n + 1) * 256 := by ring
                _ ≤ 256 ^ n * 256 := Nat.mul_le_mul_right _ (by omega)
    rw [beBytes, List.foldl_append, ih (v / 256) a]
    simp only [List.foldl_cons, List.foldl_nil]
    rw [hmod]
    ring

theorem beFold_beBytes (v : Nat) : beFold (beBytes 32 v) = v % 256 ^ 32 := by
  have := beBytes_foldl 32 v 0
  simpa [beFold] using this

theorem pow256_32 : (256 : Nat) ^ 32 = 2 ^ 256 := by decide

example : encodeParams ["bool"] [.boolean true] = List.replicate 31 0 ++ [1] := by decide
example : decodeSingleValue "bool" (List.replicate 31 0 ++ [1]) = .boolV true := by decide
example : decodeSingleValue "uint256" (encodeParams ["uint256"] [.num 300]) = .uint 300 := by decide

/-! ## ABI method-map construction (`src/evm-contract.js`, `buildMethods`) -/

/-- JS `\w`: ASCII letters, digits and underscore. -/
def wordChar (c : Char) : Bool :=
  c.isAlphanum || c == '_'

/-- JS `\s` on the characters that occur in ABI strings. -/
def wsChar (c : Char) : Bool :=
  c == ' ' || c == '\t' || c == '\n' || c == '\r' || c == '\x0b' || c == '\x0c'

/-- Consume an exact literal from the head of a character list. -/
def dropLit : List Char → List Char → Option (List Char)
  | [], s => some s
  | _ :: _, [] => none
  | p :: ps, c :: cs => if p == c then dropLit ps cs else none

/-- Substring test, JS `String.prototype.includes`. -/
def containsSub (pat : List Char) : List Char → Bool
  | [] => pat.isEmpty
  | c :: cs => listStarts pat (c :: cs) || containsSub pat cs

/-- Attempt the regex `function\s+(\w+)\s*\((.*?)\)` anchored at the head
of the text: the literal `function`, at least one whitespace, a nonempty
run of word characters (the method name), optional whitespace, `(`, then
the lazy capture up to the first `)` (dots do not cross a line break).
Returns the two capture groups. -/
def matchSigAt (s : List Char) : Option (String × String) :=
  match dropLit "function".data s with
  | none => none
  | some r1 =>
    let r2 := r1.dropWhile wsChar
    if r2.length = r1.length then none
    else
      let name := r2.takeWhile wordChar
      if name.isEmpty then none
      else
        match (r2.dropWhile wordChar).dropWhile wsChar with
        | '(' :: r4 =>
          let ps := r4.takeWhile (fun c => c ≠ ')' ∧ c ≠ '\n' ∧ c ≠ '\r')
          match r4.drop ps.length with
          | ')' :: _ => some (String.mk name, String.mk ps)
          | _ => none
        | _ => none

/-- Unanchored regex match: the first position whose anchored attempt
succeeds, as the JS regex engine backtracks over starting positions. -/
def findSig : List Char → Option (String × String)
  | [] => none
  | c :: cs =>
    match matchSigAt (c :: cs) with
    | some r => some r
    | none => findSig cs

/-- A parsed ABI method: its parameter-type text and whether the entry
declares `view`/`pure` mutability. -/
structure MethodInfo where
  params : String
  isView : Bool
deriving Repr, DecidableEq

/-- JS object-property assignment on an association list. -/
def upsert (l : List (String × MethodInfo)) (k : String) (v : MethodInfo) :
    List (String × MethodInfo) :=
  if (l.find? (fun kv => kv.1 == k)).isSome then
    l.map (fun kv => if kv.1 == k then (k, v) else kv)
  else
    l ++ [(k, v)]

/-- One iteration of the `this.abi.forEach(item => ...)` loop of
`buildMethods`: an entry containing `"function "` is run through the
signature regex; a successful match registers the method, and an entry
that fails either test contributes nothing — there is no `else` branch
and nothing is raised. -/
def abiStep (methods : List (String × MethodInfo)) (item : String) :
    List (String × MethodInfo) :=
  if containsSub "function ".data item.data then
    match findSig item.data with
    | some nm =>
      upsert methods nm.1
        ⟨nm.2, containsSub "view".data item.data || containsSub "pure".data item.data⟩
    | none => methods
  else methods

/-- `buildMethods()`: the method map accumulated over all ABI entries. -/
def buildMethods (abi : List String) : List (String × MethodInfo) :=
  abi.foldl abiStep []

example : buildMethods ["function balanceOf(address,uint256) view returns (uint256)"] =
    [("balanceOf", ⟨"address,uint256", true⟩)] := by decide
example : buildMethods ["function (x)"] = [] := by decide

/-! ## Address bridging (`src/wallet-manager.js`, `substrateToEvm`) -/

/-- `substrateToEvm(substrateAddress)`: decode the native address to its
public key and hex-render the first 20 bytes; any decoding failure is
caught and becomes `null` (`none`).  `decodeAddress` is the external
`@polkadot/util-crypto` routine, passed in as a parameter with its
exception modelled as `none`. -/
def substrateToEvm (decodeAddress : String → Option (List Nat))
    (substrateAddress : String) : Option String :=
  match decodeAddress substrateAddress with
  | some publicKey => some (u8aToHex (publicKey.take 20))
  | none => none

/-! ## Transaction bridging (`src/wallet-manager.js`, `PolkadotEVMSigner.signTransaction`) -/

/-- A ledger event as seen by the inclusion callback (`section`,
`method`, and the event's data fields as hex strings; for
`ethereum.Executed` the third field is the EVM transaction hash). -/
structure ChainEvent where
  sectionName : String
  methodName : String
  data : List String
deriving Repr, DecidableEq

/-- Inclusion status delivered to the `signAndSend` callback. -/
inductive InclusionStatus where
  | inBlock (blockHash : String)
  | finalized (blockHash : String)
  | other
deriving Repr, DecidableEq

/-- `status.asInBlock?.toHex() || status.asFinalized?.toHex()`. -/
def statusBlockHash : InclusionStatus → Option String
  | .inBlock h => some h
  | .finalized h => some h
  | .other => none

/-- A dispatch error delivered to the callback: a decodable module error
or an opaque one. -/
inductive DispatchFailure where
  | moduleErr (sec name docs : String)
  | otherErr (text : String)
deriving Repr, DecidableEq

/-- The object `signTransaction` resolves with: the chosen hash and a
`wait()` that immediately yields `{status: 1}` without polling (here the
constant function returning the status value 1). -/
structure TxSubmitResult where
  hash : String
  wait : Unit → Nat

/-- Outcome of one invocation of the `signAndSend` callback: reject with
a message, resolve with a result, or return without settling (statuses
other than in-block/finalized). -/
inductive CallbackOutcome where
  | pending
  | rejected (message : String)
  | resolved (r : TxSubmitResult)

/-- The predicate of `events.find(...)`: an `ethereum` / `Executed`
event. -/
def isExecutedEvent (e : ChainEvent) : Bool :=
  e.sectionName == "ethereum" && e.methodName == "Executed"

/-- The `signAndSend` callback body of `signTransaction`: dispatch
errors reject (module errors decoded to `section.name: docs`); once the
transaction is in a block, resolve with the hash of the first
`ethereum.Executed` event (its third data field) or, if no such event
was emitted, with the block hash; either way `wait` is the immediate
constant. -/
def signTransactionCallback (dispatchError : Option DispatchFailure)
    (status : InclusionStatus) (events : List ChainEvent) : CallbackOutcome :=
  match dispatchError with
  | some (.moduleErr sec name docs) => .rejected (sec ++ "." ++ name ++ ": " ++ docs)
  | some (.otherErr text) => .rejected text
  | none =>
    match statusBlockHash status with
    | none => .pending
    | some blockHash =>
      match events.find? isExecutedEvent with
      | some ev => .resolved { hash := (ev.data.get? 2).getD "", wait := fun _ => 1 }
      | none => .resolved { hash := blockHash, wait := fun _ => 1 }

/-! ## Package decryption (`README.md`, `decryptAES256GCM`) -/

/-- Modelled from the spec: the `hexToBytes` helper used by
`decryptAES256GCM` is not shown in the repository; per the spec the key
"decodes from hex to the algorithm's required key length", so a
malformed hex string fails (`none`). -/
def hexToBytes (s : String) : Option (List Nat) :=
  if s.data.all (fun c => hexVal c ≠ 0 ∨ c = '0') ∧ s.data.length % 2 = 0 then
    some (hexPairsToBytes s.data)
  else none

/-- `decryptAES256GCM(encryptedData, keyHex)`: nonce is bytes 0–11, the
authentication tag bytes 12–27, the remainder ciphertext; the tag is
re-appended after the ciphertext for `crypto.subtle.decrypt`.  The
WebCrypto AES-256-GCM primitive is the parameter `gcmOpen`
(key → iv → ciphertext-with-tag → plaintext), with its rejections
(authentication failure, bad input sizes) modelled as `none`; `importKey`
rejects keys that do not decode to exactly 32 bytes. -/
def decryptAES256GCM (gcmOpen : List Nat → List Nat → List Nat → Option (List Nat))
    (encryptedData : List Nat) (keyHex : String) : Option (List Nat) :=
  let iv := encryptedData.take 12
  let authTag := (encryptedData.drop 12).take 16
  let ciphertext := encryptedData.drop 28
  match hexToBytes keyHex with
  | none => none
  | some key =>
    if key.length = 32 then gcmOpen key iv (ciphertext ++ authTag)
    else none

/-! ## Deck parsing (`public/content-loader.js`, `parseDeckData`) -/

/-- A fetched manifest JSON (`{description, image, external_url,
attributes: [{trait_type, value}]}`); absent string fields are the empty
string, which `|| ''` maps to `''` just the same. -/
structure Manifest where
  description : String
  image : String
  external_url : String
  attributes : List (String × String)
deriving Repr, DecidableEq

/-- `getAttribute(manifest, traitType)`: the value of the first
attribute with the trait type, else `''` (also when the manifest itself
is `null`). -/
def getAttribute (manifest : Option Manifest) (traitType : String) : String :=
  match manifest with
  | none => ""
  | some m =>
    match m.attributes.find? (fun a => a.1 == traitType) with
    | some a => a.2
    | none => ""

/-- `isLegacy(manifest)`. -/
def isLegacy (manifest : Option Manifest) : Bool :=
  getAttribute manifest "Edition" == "Legacy"

/-- The `contractInfo` object handed to `parseDeckData`: `isFree`,
`price`, `currentSupply` and `totalMinted` may each be absent
(`undefined`), which the code tests with `!== undefined` / `|| 0`. -/
structure ContractInfo where
  name : String
  creator : String
  isFree : Option Bool
  price : Option Nat
  maxSupply : Nat
  currentSupply : Option Nat
  totalMinted : Option Nat
deriving Repr, DecidableEq

/-- The normalized Deck record.  `priceWei` carries the raw integer
price; the human-readable `price` field of the JS object is
`formatEther(priceWei)`, a pure rendering of `priceWei` not modelled
separately. -/
structure Deck where
  contentId : Nat
  name : String
  description : String
  image : String
  year : String
  creator : String
  tradition : String
  license : String
  maxSupply : Nat
  totalMinted : Nat
  priceWei : Nat
  free : Bool
  legacy : Bool
  external_url : String
deriving Repr, DecidableEq

/-- `parseDeckData(contentId, contractInfo, manifest)`: merge ledger
data and manifest into a Deck.  `free` is the explicit `isFree` field
when present, else `price.isZero()`. -/
def parseDeckData (contentId : Nat) (ci : ContractInfo) (manifest : Option Manifest) : Deck :=
  let price := ci.price.getD 0
  let totalMinted :=
    match ci.currentSupply with
    | some c => c
    | none => ci.totalMinted.getD 0
  { contentId
    name := ci.name
    description := (manifest.map (fun m => m.description)).getD ""
    image := (manifest.map (fun m => m.image)).getD ""
    year := getAttribute manifest "Year"
    creator := getAttribute manifest "Creator"
    tradition := getAttribute manifest "Tradition"
    license := getAttribute manifest "License"
    maxSupply := ci.maxSupply
    totalMinted
    priceWei := price
    free := match ci.isFree with
      | some b => b
      | none => price == 0
    legacy := isLegacy manifest
    external_url := (manifest.map (fun m => m.external_url)).getD "" }

/-! ## Single-deck load (`public/content-loader.js`, `loadDeck`) -/

/-- The decoded result of `getContentInfo(contentId)` as `loadDeck`
consumes it. -/
structure ContentInfoResult where
  creator : String
  name : String
  isFree : Option Bool
  price : Option Nat
  maxSupply : Nat
  currentSupply : Option Nat
deriving Repr, DecidableEq

/-- The object literal `loadDeck` passes on to `parseDeckData` (no
`totalMinted` key). -/
def contractInfoOf (info : ContentInfoResult) : ContractInfo :=
  { name := info.name
    creator := info.creator
    isFree := info.isFree
    price := info.price
    maxSupply := info.maxSupply
    currentSupply := info.currentSupply
    totalMinted := none }

/-- The decoded result of `getActiveVersion(contentId)`. -/
structure VersionInfo where
  payloadURI : String
  specificationURI : String
  manifestURI : String
  timestamp : String
  reason : String
  updatedBy : String
deriving Repr, DecidableEq

/-- The `metadataMap` literal of `loadDeck`: local fallback manifests
for the known content ids. -/
def metadataMap : Nat → Option String
  | 1 => some "metadata/deck-1-manifest.json"
  | 2 => some "metadata/deck-2-manifest.json"
  | 5 => some "metadata/deck-5-manifest.json"
  | 6 => some "metadata/deck-6-manifest.json"
  | _ => none

/-- The manifest-resolution block of `loadDeck`, instrumented with the
list of URIs handed to `fetchManifest` (in call order).  `fetchManifest`
itself catches network errors and non-success statuses and returns
`null`, so it is a total `Option`-valued parameter here. -/
def resolveDeckManifest (fetchManifest : String → Option Manifest)
    (contentId : Nat) (manifestURI : String) : Option Manifest × List String :=
  if manifestURI = "" ∨ manifestURI = "0x" then
    match metadataMap contentId with
    | some fallbackURI => (fetchManifest fallbackURI, [fallbackURI])
    | none => (none, [])
  else
    match fetchManifest manifestURI with
    | some m => (some m, [manifestURI])
    | none =>
      match metadataMap contentId with
      | some fallbackURI => (fetchManifest fallbackURI, [manifestURI, fallbackURI])
      | none => (none, [manifestURI])

/-- `loadDeck(contract, contentId)` after its two contract reads have
produced `info` and `version`: resolve the manifest and merge.  The
fetch trace is returned alongside; the deck itself is always produced on
this path (manifest failures never throw). -/
def loadDeck (fetchManifest : String → Option Manifest) (contentId : Nat)
    (info : ContentInfoResult) (version : VersionInfo) : Option Deck × List String :=
  let mt := resolveDeckManifest fetchManifest contentId version.manifestURI
  (some (parseDeckData contentId (contractInfoOf info) mt.1), mt.2)

/-! ## Deck cache (`getCacheKey`, `loadAllDecks`, `clearDeckCache`) -/

/-- JS `String.prototype.toLowerCase` on the character data. -/
def jsToLowerCase (s : String) : String :=
  String.mk (s.data.map Char.toLower)

/-- A stored localStorage value: a well-formed serialized cache entry
(`{decks, timestamp, walletAddress}`), or any other string (which
`JSON.parse` of the cache reader fails on or which belongs to someone
else). -/
inductive StoreVal where
  | cacheEntry (decks : List Deck) (timestamp : Nat) (walletTag : String)
  | raw (s : String)
deriving Repr, DecidableEq

/-- localStorage: key/value pairs, first binding wins. -/
abbrev Store := List (String × StoreVal)

/-- `localStorage.getItem`. -/
def getItem (key : String) : Store → Option StoreVal
  | [] => none
  | kv :: rest => if kv.1 = key then some kv.2 else getItem key rest

/-- `localStorage.removeItem`. -/
def removeItem (key : String) : Store → Store
  | [] => []
  | kv :: rest => if kv.1 = key then removeItem key rest else kv :: removeItem key rest

/-- `localStorage.setItem`: replace any existing binding. -/
def setItem (key : String) (v : StoreVal) (s : Store) : Store :=
  (key, v) :: removeItem key s

/-- The cache key stem, `CACHE_KEY_PREFIX` in the source. -/
def cacheKeyBase : String := "tesserarx_deck_cache"

/-- `CACHE_TTL`: one hour in milliseconds. -/
def CACHE_TTL : Nat := 3600000

/-- `getCacheKey(walletAddress)`: the stem alone for the global scope,
else the stem, an underscore, and the lowercased wallet address. -/
def getCacheKey (walletAddress : Option String) : String :=
  match walletAddress with
  | some w => (cacheKeyBase ++ "_") ++ jsToLowerCase w
  | none => cacheKeyBase

/-- `KNOWN_CONTENT_IDS`. -/
def KNOWN_CONTENT_IDS : List Nat := [1, 2, 5, 6]

/-- The cache-check block of `loadAllDecks`: a stored entry that parses
and is younger than the TTL yields its deck list; a missing, corrupt, or
stale entry falls through to a reload. -/
def cacheLookup (key : String) (now : Nat) (s : Store) : Option (List Deck) :=
  match getItem key s with
  | some (.cacheEntry decks ts _) => if now - ts < CACHE_TTL then some decks else none
  | _ => none

/-- `loadAllDecks(contract, useCache, walletAddress)` at time `now`:
cache hit short-circuits; otherwise each known content id is loaded in
order through `load` (the per-id `loadDeck` pipeline, `null` results
skipped) and the result cached under the scoped key.  Returns the deck
list, the updated store, and the ids read from the ledger (empty on a
cache hit: zero contract reads). -/
def loadAllDecks (load : Nat → Option Deck) (useCache : Bool)
    (walletAddress : Option String) (now : Nat) (s : Store) :
    List Deck × Store × List Nat :=
  let cacheKey := getCacheKey walletAddress
  match (if useCache then cacheLookup cacheKey now s else none) with
  | some decks => (decks, s, [])
  | none =>
    let decks := KNOWN_CONTENT_IDS.filterMap load
    let s' :=
      if useCache then
        setItem cacheKey (.cacheEntry decks now (walletAddress.getD "global")) s
      else s
    (decks, s', KNOWN_CONTENT_IDS)

/-- The timestamp of the cache entry currently stored under a key
(0 when absent or corrupt); used to phrase the TTL window. -/
def entryTimestamp (key : String) (s : Store) : Nat :=
  match getItem key s with
  | some (.cacheEntry _ ts _) => ts
  | _ => 0

/-- `clearDeckCache(walletAddress)`: remove the one scoped key, or — with
no argument — every key starting with the cache stem. -/
def clearDeckCache (walletAddress : Option String) (s : Store) : Store :=
  match walletAddress with
  | some w => removeItem (getCacheKey (some w)) s
  | none => s.filter (fun kv => ¬ strStarts kv.1 cacheKeyBase)

/-! ## Store and string lemmas -/

theorem str_data_append (a b : String) : (a ++ b).data = a.data ++ b.data := by
  cases a; cases b; rfl

theorem str_ext {a b : String} (h : a.data = b.data) : a = b := by
  cases a; cases b; exact congrArg String.mk (by simpa using h)

theorem getItem_removeItem_self (k : String) (s : Store) :
    getItem k (removeItem k s) = none := by
  induction s with
  | nil => rfl
  | cons kv rest ih =>
    by_cases h : kv.1 = k
    · simpa [removeItem, h] using ih
    · simpa [removeItem, getItem, h] using ih

theorem getItem_removeItem_ne {k k' : String} (h : k' ≠ k) (s : Store) :
    getItem k' (removeItem k s) = getItem k' s := by
  induction s with
  | nil => rfl
  | cons kv rest ih =>
    by_cases hk : kv.1 = k
    · have hne : kv.1 ≠ k' := by rw [hk]; exact fun he => h he.symm
      simp [removeItem, hk, getItem, hne, Ne.symm h, ih]
    · simp [removeItem, hk, getItem, ih]

theorem getItem_setItem_self (k : String) (v : StoreVal) (s : Store) :
    getItem k (setItem k v s) = some v := by
  simp [setItem, getItem]

theorem getItem_setItem_ne {k k' : String} (h : k' ≠ k) (v : StoreVal) (s : Store) :
    getItem k' (setItem k v s) = getItem k' s := by
  have : k ≠ k' := fun he => h he.symm
  simp only [setItem, getItem, this, if_false]
  exact getItem_removeItem_ne h s

theorem getCacheKey_data (w : String) :
    (getCacheKey (some w)).data =
      cacheKeyBase.data ++ '_' :: (jsToLowerCase w).data := by
  show ((cacheKeyBase ++ "_") ++ jsToLowerCase w).data = _
  rw [str_data_append, str_data_append]
  simp

theorem getCacheKey_inj {w1 w2 : String}
    (h : jsToLowerCase w1 ≠ jsToLowerCase w2) :
    getCacheKey (some w1) ≠ getCacheKey (some w2) := by
  intro he
  apply h
  have hd := congrArg String.data he
  rw [getCacheKey_data, getCacheKey_data] at hd
  have := List.append_cancel_left hd
  exact str_ext (List.cons.inj this).2

/-! ## Claim theorems -/

/-- C1, counterexample.  The claim states that a parameter type outside
the supported set must produce an `EncodingError` rather than a
zero-filled parameter slot.  At the concrete input `("string", 5)` the
code produces exactly the zero-filled 32-byte slot — `encodeParams` has
no branch for the type, writes nothing into the freshly zeroed buffer,
and raises nothing (no `EncodingError` exists anywhere in the source) —
so the claim is false at this input. -/
theorem encodeParams_zero_fill_counterexample :
    encodeParams ["string"] [.num 5] = List.replicate 32 0 := by decide

/-- C1, amended.  The method-not-found, malformed-ABI-entry and
decode-length-mismatch conditions are all handled silently, never with
an `EncodingError`: (1) an ABI entry that does not contain `"function "`
or does not match the signature regex is skipped, contributing no
method; (2) a parameter type outside `address`/`uint*`/`bool` encodes as
a zero-filled 32-byte slot; (3) return data of any length — in
particular shorter than 32 bytes per declared value — decodes under a
`uint` type to the fold of whatever bytes are present, a silently
truncated value. -/
theorem abi_errors_are_silent :
    (∀ item : String, ∀ abi : List String,
      containsSub "function ".data item.data = false ∨ findSig item.data = none →
      buildMethods (item :: abi) = buildMethods abi)
    ∧ (∀ t : String, ∀ v : EvmArg,
      t ≠ "address" → strStarts t "uint" = false → t ≠ "bool" →
      encSlot t v = List.replicate 32 0)
    ∧ (∀ bytes : List Nat, decodeSingleValue "uint256" bytes = .uint (beFold bytes)) := by
  refine ⟨?_, ?_, ?_⟩
  · intro item abi h
    have hstep : abiStep [] item = [] := by
      rcases h with h | h
      · simp [abiStep, h]
      · simp [abiStep, h]
    show (item :: abi).foldl abiStep [] = abi.foldl abiStep []
    rw [List.foldl_cons, hstep]
  · intro t v h1 h2 h3
    have h4 : t ≠ "uint256" := by
      intro he; subst he; exact absurd h2 (by decide)
    simp [encSlot, h1, h2, h3, h4]
  · intro bytes
    simp [decodeSingleValue]

/-- C1, witness for the amended theorem at concrete inputs: the entry
`"function (x)"` contains `"function "` but fails the regex (no method
name) and is skipped; type `"string"` zero-fills its slot; two bytes of
return data decode under `uint256` to the truncated value 258. -/
theorem abi_errors_are_silent_witness :
    buildMethods ["function (x)"] = []
    ∧ encSlot "string" (.num 7) = List.replicate 32 0
    ∧ decodeSingleValue "uint256" [1, 2] = .uint 258 :=
  ⟨abi_errors_are_silent.1 "function (x)" [] (Or.inr (by decide)),
   abi_errors_are_silent.2.1 "string" (.num 7) (by decide) (by decide) (by decide),
   abi_errors_are_silent.2.2 [1, 2]⟩

/-- C2: encoding an unsigned integer `v ≤ 2^256 − 1` into its 32-byte
big-endian slot with `encodeParams` and decoding the slot with
`decodeSingleValue` under a `uint` type yields exactly `v`; encoding and
decoding a boolean yields the same boolean. -/
theorem encode_decode_roundtrip :
    (∀ v : Nat, v ≤ 2 ^ 256 - 1 →
      decodeSingleValue "uint256" (encodeParams ["uint256"] [.num v]) = .uint v)
    ∧ ∀ b : Bool,
      decodeSingleValue "bool" (encodeParams ["bool"] [.boolean b]) = .boolV b := by
  constructor
  · intro v hv
    have henc : encodeParams ["uint256"] [EvmArg.num v] = beBytes 32 v := by
      simp [encodeParams, encSlot]
    rw [henc]
    have hdec : decodeSingleValue "uint256" (beBytes 32 v) =
        .uint (beFold (beBytes 32 v)) := by
      simp [decodeSingleValue]
    have hpos : 0 < 2 ^ 256 := Nat.pos_pow_of_pos _ (by norm_num)
    have hlt : v < 2 ^ 256 :=
      Nat.lt_of_le_of_lt hv (Nat.sub_lt hpos (by norm_num))
    rw [hdec, beFold_beBytes, pow256_32, Nat.mod_eq_of_lt hlt]
  · intro b
    cases b <;> decide

/-- C2, witness at concrete inputs. -/
theorem encode_decode_roundtrip_witness :
    decodeSingleValue "uint256" (encodeParams ["uint256"] [.num 300]) = .uint 300
    ∧ decodeSingleValue "bool" (encodeParams ["bool"] [.boolean false]) = .boolV false :=
  ⟨encode_decode_roundtrip.1 300 (by norm_num),
   encode_decode_roundtrip.2 false⟩

/-- C10: when the RPC call returns empty return data — the field absent
(`none`) or the literal `'0x'` — `decodeReturnData` returns `null`
(`none`), whatever return types the ABI entry declares; the `call` path
returns this value to the caller unchanged, so a read of a method with
declared returns can surface `null`. -/
theorem decodeReturnData_empty_is_null (types : List String) :
    decodeReturnData types none = none
    ∧ decodeReturnData types (some "0x") = none := by
  refine ⟨rfl, ?_⟩
  simp [decodeReturnData]

/-- C3: for a successfully included bridged transaction (no dispatch
error, status in-block or finalized), `signTransaction` resolves with
the EVM transaction hash carried by the emitted `ethereum`/`Executed`
event when one is present among the inclusion events (its third data
field), and with the block hash otherwise; in both cases the result's
`wait()` yields its settled value (`{status: 1}`) immediately, with no
further polling. -/
theorem signTransaction_result (status : InclusionStatus) (events : List ChainEvent)
    (bh : String) (hs : statusBlockHash status = some bh) :
    (∀ ev, events.find? isExecutedEvent = some ev →
      signTransactionCallback none status events =
        .resolved { hash := (ev.data.get? 2).getD "", wait := fun _ => 1 })
    ∧ (events.find? isExecutedEvent = none →
      signTransactionCallback none status events =
        .resolved { hash := bh, wait := fun _ => 1 })
    ∧ ∀ r, signTransactionCallback none status events = .resolved r →
        r.wait () = 1 := by
  refine ⟨?_, ?_, ?_⟩
  · intro ev hev
    simp [signTransactionCallback, hs, hev]
  · intro hev
    simp [signTransactionCallback, hs, hev]
  · intro r hr
    simp only [signTransactionCallback, hs] at hr
    cases hfind : events.find? isExecutedEvent with
    | some ev =>
      rw [hfind] at hr
      cases hr
      rfl
    | none =>
      rw [hfind] at hr
      cases hr
      rfl

/-- C3, witness: with an `ethereum.Executed` event present the resolved
hash is the event's third data field; with none it is the block hash. -/
theorem signTransaction_result_witness :
    signTransactionCallback none (.inBlock "0xblock")
        [⟨"ethereum", "Executed", ["0xfrom", "0xto", "0xtxhash"]⟩] =
      .resolved { hash := "0xtxhash", wait := fun _ => 1 }
    ∧ signTransactionCallback none (.finalized "0xblock")
        [⟨"system", "ExtrinsicSuccess", []⟩] =
      .resolved { hash := "0xblock", wait := fun _ => 1 } :=
  ⟨(signTransaction_result (.inBlock "0xblock")
      [⟨"ethereum", "Executed", ["0xfrom", "0xto", "0xtxhash"]⟩] "0xblock" rfl).1
      ⟨"ethereum", "Executed", ["0xfrom", "0xto", "0xtxhash"]⟩ (by decide),
   (signTransaction_result (.finalized "0xblock")
      [⟨"system", "ExtrinsicSuccess", []⟩] "0xblock" rfl).2.1 (by decide)⟩

/-- C4: for a decodable account identifier, `substrateToEvm` returns the
hex rendering of exactly the first 20 bytes of the decoded public key;
its output depends only on the decoded key (so two calls on the same
identifier are byte-identical); a malformed identifier (decoding throws,
modelled `none`) yields `null` and never an exception — the function is
total. -/
theorem substrateToEvm_spec (decodeAddress : String → Option (List Nat)) (a : String) :
    (∀ pk, decodeAddress a = some pk →
      substrateToEvm decodeAddress a = some (u8aToHex (pk.take 20)))
    ∧ (decodeAddress a = none → substrateToEvm decodeAddress a = none)
    ∧ ∀ a2, decodeAddress a = decodeAddress a2 →
        substrateToEvm decodeAddress a = substrateToEvm decodeAddress a2 := by
  refine ⟨?_, ?_, ?_⟩
  · intro pk hpk
    simp [substrateToEvm, hpk]
  · intro hn
    simp [substrateToEvm, hn]
  · intro a2 he
    simp [substrateToEvm, he]

/-- C4, witness: a concrete 32-byte key whose first 20 bytes hex-render
to the zero address, and a malformed identifier yielding `none`. -/
theorem substrateToEvm_spec_witness :
    substrateToEvm
        (fun s => if s = "5GoodAddr" then some (List.replicate 32 0) else none)
        "5GoodAddr" = some "0x0000000000000000000000000000000000000000"
    ∧ substrateToEvm
        (fun s => if s = "5GoodAddr" then some (List.replicate 32 0) else none)
        "bogus" = none := by
  constructor
  · have h := (substrateToEvm_spec
      (fun s => if s = "5GoodAddr" then some (List.replicate 32 0) else none)
      "5GoodAddr").1 (List.replicate 32 0) (by decide)
    rw [h]
    decide
  · exact (substrateToEvm_spec
      (fun s => if s = "5GoodAddr" then some (List.replicate 32 0) else none)
      "bogus").2.1 (by decide)

/-- C5: `decrypt` uses bytes 0–11 of the buffer as nonce, bytes 12–27 as
authentication tag, and the remainder as ciphertext, handing the
primitive the ciphertext with the tag appended; a wrong-length or
undecodable key fails; an authentication failure of the primitive
propagates as failure, never as partial or altered plaintext; a buffer
shorter than 28 bytes fails (its ciphertext-plus-tag is shorter than one
GCM tag, which the primitive rejects — hypothesis `hShort`); and a
successful result is exactly the primitive's plaintext. -/
theorem decryptAES256GCM_spec
    (gcmOpen : List Nat → List Nat → List Nat → Option (List Nat))
    (hShort : ∀ k iv c, c.length < 16 → gcmOpen k iv c = none)
    (B : List Nat) (K : String) :
    (∀ key, hexToBytes K = some key → key.length = 32 →
      decryptAES256GCM gcmOpen B K =
        gcmOpen key (B.take 12) (B.drop 28 ++ (B.drop 12).take 16))
    ∧ (∀ key, hexToBytes K = some key → key.length ≠ 32 →
      decryptAES256GCM gcmOpen B K = none)
    ∧ (hexToBytes K = none → decryptAES256GCM gcmOpen B K = none)
    ∧ (B.length < 28 → decryptAES256GCM gcmOpen B K = none)
    ∧ ∀ p, decryptAES256GCM gcmOpen B K = some p →
        ∃ key, hexToBytes K = some key ∧ key.length = 32 ∧
          gcmOpen key (B.take 12) (B.drop 28 ++ (B.drop 12).take 16) = some p := by
  refine ⟨?_, ?_, ?_, ?_, ?_⟩
  · intro key hk hlen
    simp [decryptAES256GCM, hk, hlen]
  · intro key hk hlen
    simp [decryptAES256GCM, hk, hlen]
  · intro hk
    simp [decryptAES256GCM, hk]
  · intro hb
    cases hk : hexToBytes K with
    | none => simp [decryptAES256GCM, hk]
    | some key =>
      by_cases hlen : key.length = 32
      · have hct : (B.drop 28 ++ (B.drop 12).take 16).length < 16 := by
          simp only [List.length_append, List.length_drop, List.length_take]
          omega
        simp [decryptAES256GCM, hk, hlen, hShort _ _ _ hct]
      · simp [decryptAES256GCM, hk, hlen]
  · intro p hp
    cases hk : hexToBytes K with
    | none => simp [decryptAES256GCM, hk] at hp
    | some key =>
      by_cases hlen : key.length = 32
      · refine ⟨key, rfl, hlen, ?_⟩
        simpa [decryptAES256GCM, hk, hlen] using hp
      · simp [decryptAES256GCM, hk, hlen] at hp

/-- C5, witness: a 1-byte buffer (shorter than the 28-byte minimum)
fails under a concrete primitive that rejects inputs shorter than one
tag. -/
theorem decryptAES256GCM_spec_witness :
    decryptAES256GCM
      (fun _ _ c => if c.length < 16 then none else some (c.take (c.length - 16)))
      [0] "00" = none :=
  (decryptAES256GCM_spec
    (fun _ _ c => if c.length < 16 then none else some (c.take (c.length - 16)))
    (fun k iv c h => by simp [h])
    [0] "00").2.2.2.1 (by norm_num)

/-- C6: the Deck's `free` flag equals `price == 0` whenever the ledger
data carries no explicit `isFree` field, and equals the explicit field
whenever one is present — the explicit field wins even against a
disagreeing price. -/
theorem parseDeckData_free_flag (cid : Nat) (ci : ContractInfo) (m : Option Manifest) :
    (ci.isFree = none →
      (parseDeckData cid ci m).free = (ci.price.getD 0 == 0))
    ∧ ∀ b, ci.isFree = some b → (parseDeckData cid ci m).free = b := by
  constructor
  · intro h
    simp [parseDeckData, h]
  · intro b h
    simp [parseDeckData, h]

/-- C6, witness: without `isFree` the flag follows the zero price; with
an explicit `isFree = true` it wins although the price is 5. -/
theorem parseDeckData_free_flag_witness :
    (parseDeckData 1
      ⟨"Deck", "0xc", none, some 0, 10, some 0, none⟩ none).free = (true : Bool)
    ∧ (parseDeckData 1
      ⟨"Deck", "0xc", some true, some 5, 10, some 0, none⟩ none).free = true := by
  constructor
  · have h := (parseDeckData_free_flag 1
      ⟨"Deck", "0xc", none, some 0, 10, some 0, none⟩ none).1 rfl
    rw [h]
    decide
  · exact (parseDeckData_free_flag 1
      ⟨"Deck", "0xc", some true, some 5, 10, some 0, none⟩ none).2 true rfl

/-- C7: manifest resolution in `loadDeck`.  (1) An empty or placeholder
(`'0x'`) on-ledger pointer fetches the statically known local fallback
path for the contentId.  (2) With no fallback entry the Deck is still
returned, its manifest-derived fields empty, instead of the load
failing.  (3) A present pointer whose fetch fails retries exactly once
against the local fallback when one exists (the fetch trace is exactly
`[pointer, fallback]`), and otherwise leaves the manifest fields empty
after the single fetch. -/
theorem loadDeck_manifest_resolution (f : String → Option Manifest) (cid : Nat)
    (info : ContentInfoResult) (ver : VersionInfo) :
    (∀ fb, ver.manifestURI = "" ∨ ver.manifestURI = "0x" → metadataMap cid = some fb →
      loadDeck f cid info ver =
        (some (parseDeckData cid (contractInfoOf info) (f fb)), [fb]))
    ∧ (ver.manifestURI = "" ∨ ver.manifestURI = "0x" → metadataMap cid = none →
      loadDeck f cid info ver = (some (parseDeckData cid (contractInfoOf info) none), [])
      ∧ (parseDeckData cid (contractInfoOf info) none).description = ""
      ∧ (parseDeckData cid (contractInfoOf info) none).image = ""
      ∧ (parseDeckData cid (contractInfoOf info) none).year = ""
      ∧ (parseDeckData cid (contractInfoOf info) none).creator = ""
      ∧ (parseDeckData cid (contractInfoOf info) none).tradition = ""
      ∧ (parseDeckData cid (contractInfoOf info) none).license = ""
      ∧ (parseDeckData cid (contractInfoOf info) none).external_url = "")
    ∧ (¬(ver.manifestURI = "" ∨ ver.manifestURI = "0x") → f ver.manifestURI = none →
      ∀ fb, metadataMap cid = some fb →
        loadDeck f cid info ver =
          (some (parseDeckData cid (contractInfoOf info) (f fb)),
           [ver.manifestURI, fb]))
    ∧ (¬(ver.manifestURI = "" ∨ ver.manifestURI = "0x") → f ver.manifestURI = none →
      metadataMap cid = none →
        loadDeck f cid info ver =
          (some (parseDeckData cid (contractInfoOf info) none), [ver.manifestURI])) := by
  refine ⟨?_, ?_, ?_, ?_⟩
  · intro fb hu hm
    simp [loadDeck, resolveDeckManifest, hu, hm]
  · intro hu hm
    refine ⟨by simp [loadDeck, resolveDeckManifest, hu, hm], ?_, ?_, ?_, ?_, ?_, ?_, ?_⟩
      <;> simp [parseDeckData, getAttribute]
  · intro hu hf fb hm
    simp [loadDeck, resolveDeckManifest, hu, hf, hm]
  · intro hu hf hm
    simp [loadDeck, resolveDeckManifest, hu, hf, hm]

/-- C7, witness at concrete inputs: contentId 1 with empty pointer
fetches its fallback path; contentId 3 (no fallback) with empty pointer
yields a Deck with empty manifest fields and no fetches. -/
theorem loadDeck_manifest_resolution_witness :
    loadDeck (fun _ => none) 1 ⟨"0xc", "Deck", none, some 0, 10, some 0⟩
        ⟨"", "", "", "", "", ""⟩ =
      (some (parseDeckData 1
        (contractInfoOf ⟨"0xc", "Deck", none, some 0, 10, some 0⟩) none),
       ["metadata/deck-1-manifest.json"])
    ∧ loadDeck (fun _ => none) 3 ⟨"0xc", "Deck", none, some 0, 10, some 0⟩
        ⟨"", "", "", "", "", ""⟩ =
      (some (parseDeckData 3
        (contractInfoOf ⟨"0xc", "Deck", none, some 0, 10, some 0⟩) none), []) :=
  ⟨(loadDeck_manifest_resolution (fun _ => none) 1
      ⟨"0xc", "Deck", none, some 0, 10, some 0⟩ ⟨"", "", "", "", "", ""⟩).1
      "metadata/deck-1-manifest.json" (Or.inl rfl) rfl,
   ((loadDeck_manifest_resolution (fun _ => none) 3
      ⟨"0xc", "Deck", none, some 0, 10, some 0⟩ ⟨"", "", "", "", "", ""⟩).2.1
      (Or.inl rfl) rfl).1⟩

/-- C8: calling `loadAllDecks` with `useCache = true` twice within the
TTL window — the second call falling inside the validity window of the
cache entry left in place by the first call — issues zero ledger reads
on the second call (its contract-read trace is empty, whatever the
ledger would now answer), returns exactly the first call's deck list,
and leaves the store untouched. -/
theorem loadAllDecks_cache_idempotent (load1 load2 : Nat → Option Deck)
    (w : Option String) (now1 now2 : Nat) (s0 : Store)
    (h : now2 - entryTimestamp (getCacheKey w)
        (loadAllDecks load1 true w now1 s0).2.1 < CACHE_TTL) :
    loadAllDecks load2 true w now2 (loadAllDecks load1 true w now1 s0).2.1 =
      ((loadAllDecks load1 true w now1 s0).1,
       (loadAllDecks load1 true w now1 s0).2.1, []) := by
  cases hc : cacheLookup (getCacheKey w) now1 s0 with
  | some decks =>
    have hfirst : loadAllDecks load1 true w now1 s0 = (decks, s0, []) := by
      simp [loadAllDecks, hc]
    rw [hfirst] at h ⊢
    have h2 : cacheLookup (getCacheKey w) now2 s0 = some decks := by
      unfold cacheLookup at hc ⊢
      cases hg : getItem (getCacheKey w) s0 with
      | none => rw [hg] at hc; exact absurd hc (by simp)
      | some v =>
        cases v with
        | raw str => rw [hg] at hc; simp at hc
        | cacheEntry d ts tag =>
          rw [hg] at hc
          have hd : d = decks := by
            by_cases hts : now1 - ts < CACHE_TTL
            · simpa [hts] using hc
            · simp [hts] at hc
          subst hd
          have hts2 : now2 - ts < CACHE_TTL := by
            have he : entryTimestamp (getCacheKey w) s0 = ts := by
              simp [entryTimestamp, hg]
            rwa [he] at h
          simp [hts2]
    simp [loadAllDecks, h2]
  | none =>
    have hfirst : loadAllDecks load1 true w now1 s0 =
        (KNOWN_CONTENT_IDS.filterMap load1,
         setItem (getCacheKey w)
           (.cacheEntry (KNOWN_CONTENT_IDS.filterMap load1) now1 (w.getD "global")) s0,
         KNOWN_CONTENT_IDS) := by
      simp [loadAllDecks, hc]
    rw [hfirst] at h ⊢
    have hget : getItem (getCacheKey w)
        (setItem (getCacheKey w)
          (.cacheEntry (KNOWN_CONTENT_IDS.filterMap load1) now1 (w.getD "global")) s0) =
        some (.cacheEntry (KNOWN_CONTENT_IDS.filterMap load1) now1 (w.getD "global")) :=
      getItem_setItem_self _ _ _
    have hts : now2 - now1 < CACHE_TTL := by
      have he : entryTimestamp (getCacheKey w)
          (setItem (getCacheKey w)
            (.cacheEntry (KNOWN_CONTENT_IDS.filterMap load1) now1 (w.getD "global")) s0) =
          now1 := by
        simp [entryTimestamp, hget]
      rwa [he] at h
    have h2 : cacheLookup (getCacheKey w) now2
        (setItem (getCacheKey w)
          (.cacheEntry (KNOWN_CONTENT_IDS.filterMap load1) now1 (w.getD "global")) s0) =
        some (KNOWN_CONTENT_IDS.filterMap load1) := by
      simp [cacheLookup, hget, hts]
    simp [loadAllDecks, h2]

/-- C8, witness: an empty store, first call at time 0, second at time 1
(inside the one-hour TTL). -/
theorem loadAllDecks_cache_idempotent_witness :
    loadAllDecks (fun _ => none) true none 1
        (loadAllDecks (fun _ => none) true none 0 []).2.1 =
      ((loadAllDecks (fun _ => none) true none 0 []).1,
       (loadAllDecks (fun _ => none) true none 0 []).2.1, []) :=
  loadAllDecks_cache_idempotent (fun _ => none) (fun _ => none) none 0 1 [] (by decide)

/-- C9: distinct wallet scopes (addresses differing after lowercasing)
use distinct cache keys; `loadAllDecks` under scope W1 leaves every
other key of the store — W2's entry and everything else — unchanged;
`clearDeckCache(W1)` removes exactly W1's entry and changes no other
key, inside or outside the cache-key stem. -/
theorem cache_scoping (w1 w2 : String) (s : Store)
    (h : jsToLowerCase w1 ≠ jsToLowerCase w2) :
    getCacheKey (some w1) ≠ getCacheKey (some w2)
    ∧ (∀ load now k, k ≠ getCacheKey (some w1) →
        getItem k (loadAllDecks load true (some w1) now s).2.1 = getItem k s)
    ∧ getItem (getCacheKey (some w1)) (clearDeckCache (some w1) s) = none
    ∧ ∀ k, k ≠ getCacheKey (some w1) →
        getItem k (clearDeckCache (some w1) s) = getItem k s := by
  refine ⟨getCacheKey_inj h, ?_, ?_, ?_⟩
  · intro load now k hk
    cases hc : cacheLookup (getCacheKey (some w1)) now s with
    | some decks => simp [loadAllDecks, hc]
    | none => simp [loadAllDecks, hc, getItem_setItem_ne hk]
  · show getItem _ (removeItem _ s) = none
    exact getItem_removeItem_self _ s
  · intro k hk
    show getItem k (removeItem _ s) = getItem k s
    exact getItem_removeItem_ne hk s

/-- C9, witness: scopes `"Alice"` and `"Bob"` over a store holding both
entries — clearing Alice's scope removes her entry and leaves Bob's. -/
theorem cache_scoping_witness :
    getCacheKey (some "Alice") ≠ getCacheKey (some "Bob")
    ∧ getItem (getCacheKey (some "Alice"))
        (clearDeckCache (some "Alice")
          [(getCacheKey (some "Alice"), .raw "x"),
           (getCacheKey (some "Bob"), .raw "y")]) = none
    ∧ getItem (getCacheKey (some "Bob"))
        (clearDeckCache (some "Alice")
          [(getCacheKey (some "Alice"), .raw "x"),
           (getCacheKey (some "Bob"), .raw "y")]) = some (.raw "y") := by
  have hc := cache_scoping "Alice" "Bob"
    [(getCacheKey (some "Alice"), .raw "x"), (getCacheKey (some "Bob"), .raw "y")]
    (by decide)
  refine ⟨hc.1, hc.2.2.1, ?_⟩
  rw [hc.2.2.2 _ (Ne.symm hc.1)]
  decide
